import Mathlib

/-!
Formal model of `src/repro.cpp`: a bounded blocking MPMC queue
(`concurrent_bounded_queue<T, N>`) built from two counting semaphores
(`items_produced`, `remaining_space`) and a mutex-guarded `std::queue`,
together with the stress harness in `main` that runs `num_runs` rounds of
`num_enqueues_per_run` work tasks plus `num_threads` latch-arrival tasks
against `num_threads` consumer threads.

The concurrent behaviour is embedded as a small-step interleaving semantics:
each mutex-protected critical section is a single atomic step, and the two
counting semaphores are modelled as the atomic counters the C++20 standard
specifies (a `release` synchronizes with the `acquire` that observes it).
The sequential behaviour of `try_dequeue_for` is additionally embedded as a
plain function on queue states.
-/

/-- The two kinds of task closure `main` enqueues into the queue:
`[&] \x7b ++count; \x7d` (a unit of work) and
`[&] \x7b l.arrive_and_wait(); \x7d` (a latch-arrival task). -/
inductive QTask where
  | work
  | barrier
  deriving DecidableEq

/-- `constexpr std::size_t num_runs = 20000;` -/
def num_runs : Nat := 20000

/-- `constexpr std::size_t num_enqueues_per_run = 256;` -/
def num_enqueues_per_run : Nat := 256

/-- `constexpr std::size_t num_threads = 8;` -/
def num_threads : Nat := 8

/-- The template argument `N = 32` of `concurrent_bounded_queue` in `main`. -/
def queue_capacity : Nat := 32

/-- Total number of enqueues `main` performs per round: the work tasks
followed by one latch-arrival task per consumer thread. -/
def total_enqueues : Nat := num_enqueues_per_run + num_threads

/-- The task `main` enqueues at position `i` within a round: the first
`num_enqueues_per_run` enqueues are work tasks, the rest are latch-arrival
tasks. -/
def taskAt (i : Nat) : QTask :=
  if i < num_enqueues_per_run then .work else .barrier

/-- The full sequence of tasks `main` enqueues in one round, in order. -/
def taskSeq : List QTask :=
  List.replicate num_enqueues_per_run QTask.work ++
    List.replicate num_threads QTask.barrier

/-- Modelled from the spec: `counting_semaphore::try_acquire`, whose
implementation is this repository's `<semaphore>` library header and is not
under `src/`.  Section 4.1 of the spec requires the semaphore's
release/acquire pair to synchronize (acquire-release ordering carrying the
releaser's prior writes), so the semaphore is embedded as an atomic counter
whose acquire succeeds exactly when the counter is positive. -/
def sem_try_acquire (n : Nat) : Option Nat :=
  if n = 0 then none else some (n - 1)

/-- Modelled from the spec: `counting_semaphore::release` (same missing
library header): increments the counter and synchronizes with the acquire
that observes it. -/
def sem_release (n : Nat) : Nat := n + 1

/-- Modelled from the spec: the release condition of a `std::latch` over
`num_threads + 1` parties (this repository's `<latch>` library header, not
under `src/`): `arrive_and_wait` blocks until every party has arrived,
releasing all waiters exactly when the arrival count reaches the party
count. -/
def latch_released (arrivals : Nat) : Bool :=
  arrivals = num_threads + 1

/-- Sequential state of `concurrent_bounded_queue<T, N>`: the `std::queue`
contents and the two semaphore counters. -/
structure concurrent_bounded_queue (T : Type) where
  items : List T
  items_produced : Nat
  remaining_space : Nat
  deriving DecidableEq

/-- Direct translation of `concurrent_bounded_queue::try_dequeue_for` run in
isolation.  The timed `try_acquire_for` on `items_produced` succeeds exactly
when the counter is positive (otherwise the timeout elapses with no unit
available).  The outer `none` is the `assert(!items.empty())` firing (a fatal
abort); `some (none, q)` is the timeout path returning an empty optional;
`some (some t, q)` returns the dequeued head. -/
def try_dequeue_for (q : concurrent_bounded_queue T) :
    Option (Option T × concurrent_bounded_queue T) :=
  match sem_try_acquire q.items_produced with
  | none => some (none, q)
  | some n =>
      match q.items with
      | [] => none
      | t :: rest =>
          some (some t, ⟨rest, n, sem_release q.remaining_space⟩)

/-- Direct translation of `concurrent_bounded_queue::enqueue` run in
isolation: `none` when `remaining_space.acquire()` would block (the store is
at capacity), otherwise the item is appended and `items_produced` released. -/
def enqueue (q : concurrent_bounded_queue T) (t : T) :
    Option (concurrent_bounded_queue T) :=
  match sem_try_acquire q.remaining_space with
  | none => none
  | some n => some ⟨q.items ++ [t], sem_release q.items_produced, n⟩

/-- Local state of one consumer thread (the lambda run by `thread_group`):
`idle` at the top of the polling loop; `acquired` after a successful
`items_produced.try_acquire_for` but before the store lock is taken;
`holding t` after popping `t` under the lock but before
`remaining_space.release()`; `executing t` after `try_dequeue_for` returned
and before `(*f)()` finishes; `waiting` blocked inside
`l.arrive_and_wait()`; `done` after observing the stop flag and exiting. -/
inductive CState where
  | idle
  | acquired
  | holding (t : QTask)
  | executing (t : QTask)
  | waiting
  | done
  deriving DecidableEq

/-- Position of the main thread inside one `enqueue` call: about to
`remaining_space.acquire()`; about to append under the lock; about to
`items_produced.release()`. -/
inductive EnqPh where
  | toAcquire
  | toAppend
  | toRelease
  deriving DecidableEq

/-- Program counter of the main thread: at the top of the round loop
(`mstart`), performing enqueue number `i` of the round (`menq`), about to
arrive at the latch (`marrive`), blocked in `arrive_and_wait` (`mwait`),
released and about to store the stop flag (`mset`), joining the consumer
threads in `~thread_group` (`mjoin`), or past the round loop at the final
assertion (`mfinal`). -/
inductive MPc where
  | mstart
  | menq (i : Nat) (ph : EnqPh)
  | marrive
  | mwait
  | mset
  | mjoin
  | mfinal
  deriving DecidableEq

/-- Global configuration of the program: the round index, the main thread's
program counter, the multiset of consumer-thread states, the queue fields
(`items`, `items_produced`, `remaining_space`), the latch arrival count, the
`stop_requested` flag, the `count` counter, and ghost history: `history` is
the round's items in append order, `popped` the round's items in pop order.
`crashed` records that the `assert(!items.empty())` in `try_dequeue_for`
fired. -/
structure Config where
  round : Nat
  mainPc : MPc
  consumers : Multiset CState
  items : List QTask
  items_produced : Nat
  remaining_space : Nat
  arrivals : Nat
  stop_requested : Bool
  count : Nat
  history : List QTask
  popped : List QTask
  crashed : Bool
  deriving DecidableEq

/-- The configuration at program start: round 0, empty queue,
`items_produced = 0`, `remaining_space = N`, `count = 0`, no consumers yet. -/
def init : Config :=
  { round := 0
    mainPc := .mstart
    consumers := 0
    items := []
    items_produced := 0
    remaining_space := queue_capacity
    arrivals := 0
    stop_requested := false
    count := 0
    history := []
    popped := []
    crashed := false }

/-- One interleaved step of the program.  Main-thread constructors follow
`main`'s statements in order; consumer constructors follow the consumer
lambda and the body of `try_dequeue_for`. -/
inductive Step : Config → Config → Prop where
  /-- Top of the round loop with rounds remaining: construct
  `stop_requested(false)`, the `thread_group` of `num_threads` consumers and
  (later used) latch state for this round. -/
  | spawn {c : Config} :
      c.mainPc = .mstart → c.round < num_runs →
      Step c { c with mainPc := .menq 0 .toAcquire,
                      consumers := Multiset.replicate num_threads .idle,
                      stop_requested := false,
                      arrivals := 0 }
  /-- Top of the round loop with all rounds done: fall through to the final
  assertion. -/
  | finish {c : Config} :
      c.mainPc = .mstart → c.round = num_runs →
      Step c { c with mainPc := .mfinal }
  /-- `remaining_space.acquire()` inside `enqueue` (blocks while the counter
  is zero). -/
  | enqAcquire {c : Config} {i : Nat} :
      c.mainPc = .menq i .toAcquire → 0 < c.remaining_space →
      Step c { c with mainPc := .menq i .toAppend,
                      remaining_space := c.remaining_space - 1 }
  /-- `items.emplace(...)` under `scoped_lock l(items_mtx)` inside
  `enqueue`: append at the tail of the backing store. -/
  | enqAppend {c : Config} {i : Nat} :
      c.mainPc = .menq i .toAppend →
      Step c { c with mainPc := .menq i .toRelease,
                      items := c.items ++ [taskAt i],
                      history := c.history ++ [taskAt i] }
  /-- `items_produced.release()` inside `enqueue`, after the lock is
  released; more enqueues remain this round. -/
  | enqReleaseNext {c : Config} {i : Nat} :
      c.mainPc = .menq i .toRelease → i + 1 < total_enqueues →
      Step c { c with mainPc := .menq (i + 1) .toAcquire,
                      items_produced := c.items_produced + 1 }
  /-- `items_produced.release()` for the round's last enqueue: main proceeds
  to its own latch arrival. -/
  | enqReleaseLast {c : Config} {i : Nat} :
      c.mainPc = .menq i .toRelease → i + 1 = total_enqueues →
      Step c { c with mainPc := .marrive,
                      items_produced := c.items_produced + 1 }
  /-- Main's own `l.arrive_and_wait()`: the arrival part. -/
  | mainArrive {c : Config} :
      c.mainPc = .marrive →
      Step c { c with mainPc := .mwait, arrivals := c.arrivals + 1 }
  /-- Main's `arrive_and_wait` returns once all `num_threads + 1` parties
  have arrived. -/
  | mainLatchOpen {c : Config} :
      c.mainPc = .mwait → latch_released c.arrivals = true →
      Step c { c with mainPc := .mset }
  /-- `stop_requested.store(true, ...)`. -/
  | mainSetStop {c : Config} :
      c.mainPc = .mset →
      Step c { c with mainPc := .mjoin, stop_requested := true }
  /-- `~thread_group`: `for (auto& t : members) t.join();` — enabled only
  once every consumer has exited its loop; ends the round. -/
  | mainJoin {c : Config} :
      c.mainPc = .mjoin → (∀ s ∈ c.consumers, s = CState.done) →
      Step c { c with mainPc := .mstart,
                      round := c.round + 1,
                      consumers := 0,
                      history := [],
                      popped := [] }
  /-- A consumer reads `stop_requested` as `true` and exits its loop. -/
  | cExit {c : Config} {rest : Multiset CState} :
      c.consumers = .idle ::ₘ rest → c.stop_requested = true →
      Step c { c with consumers := .done ::ₘ rest }
  /-- A consumer's `items_produced.try_acquire_for(1ms)` succeeds (a unit is
  available within the timeout). -/
  | cAcquire {c : Config} {rest : Multiset CState} :
      c.consumers = .idle ::ₘ rest → 0 < c.items_produced →
      Step c { c with consumers := .acquired ::ₘ rest,
                      items_produced := c.items_produced - 1 }
  /-- Under `scoped_lock l(items_mtx)` after a successful acquire, the store
  is observed empty: `assert(!items.empty())` fires. -/
  | cAssertFail {c : Config} {rest : Multiset CState} :
      c.consumers = .acquired ::ₘ rest → c.items = [] →
      Step c { c with crashed := true }
  /-- Under `scoped_lock l(items_mtx)` after a successful acquire:
  `tmp = move(items.front()); items.pop();`. -/
  | cPop {c : Config} {rest : Multiset CState} {t : QTask} {its : List QTask} :
      c.consumers = .acquired ::ₘ rest → c.items = t :: its →
      Step c { c with consumers := .holding t ::ₘ rest,
                      items := its,
                      popped := c.popped ++ [t] }
  /-- `remaining_space.release()` after the lock is released;
  `try_dequeue_for` returns the item. -/
  | cRelSpace {c : Config} {rest : Multiset CState} {t : QTask} :
      c.consumers = .holding t ::ₘ rest →
      Step c { c with consumers := .executing t ::ₘ rest,
                      remaining_space := c.remaining_space + 1 }
  /-- Executing a dequeued work task: `++count;`. -/
  | cExecWork {c : Config} {rest : Multiset CState} :
      c.consumers = .executing .work ::ₘ rest →
      Step c { c with consumers := .idle ::ₘ rest, count := c.count + 1 }
  /-- Executing a dequeued latch task: the arrival part of
  `l.arrive_and_wait()`. -/
  | cExecBarrier {c : Config} {rest : Multiset CState} :
      c.consumers = .executing .barrier ::ₘ rest →
      Step c { c with consumers := .waiting ::ₘ rest,
                      arrivals := c.arrivals + 1 }
  /-- A consumer's `arrive_and_wait` returns once all `num_threads + 1`
  parties have arrived; it loops back to the stop-flag check. -/
  | cLatchOpen {c : Config} {rest : Multiset CState} :
      c.consumers = .waiting ::ₘ rest → latch_released c.arrivals = true →
      Step c { c with consumers := .idle ::ₘ rest }

/-- The configurations the program can reach from `init` by interleaved
steps. -/
def Reachable (c : Config) : Prop :=
  Relation.ReflTransGen Step init c

/-! ### Counting helpers over the consumer multiset -/

/-- Consumer is between a successful `items_produced` acquire and the pop. -/
def isAcq : CState → Bool
  | .acquired => true
  | _ => false

/-- Consumer is between the pop and `remaining_space.release()`. -/
def isHold : CState → Bool
  | .holding _ => true
  | _ => false

/-- Consumer is blocked inside `l.arrive_and_wait()`. -/
def isWait : CState → Bool
  | .waiting => true
  | _ => false

/-- Consumer has popped task `t` but its execution has not yet finished. -/
def isFlight (t : QTask) : CState → Bool
  | .holding u => u = t
  | .executing u => u = t
  | _ => false

/-- Consumer states possible once the round's latch has opened. -/
def isPostBarrier : CState → Bool
  | .waiting => true
  | .idle => true
  | .done => true
  | _ => false

/-- Number of consumers whose state satisfies `f`. -/
def cnt (f : CState → Bool) (m : Multiset CState) : Nat :=
  Multiset.countP (fun s => f s = true) m

@[simp] lemma cnt_zero (f : CState → Bool) : cnt f 0 = 0 := rfl

@[simp] lemma cnt_cons (f : CState → Bool) (a : CState) (m : Multiset CState) :
    cnt f (a ::ₘ m) = cnt f m + (if f a then 1 else 0) := by
  simp [cnt, Multiset.countP_cons]

@[simp] lemma cnt_singleton (f : CState → Bool) (a : CState) :
    cnt f ({a} : Multiset CState) = if f a then 1 else 0 := by
  rw [← Multiset.cons_zero, cnt_cons, cnt_zero, Nat.zero_add]

@[simp] lemma cnt_replicate (f : CState → Bool) (n : Nat) (a : CState) :
    cnt f (Multiset.replicate n a) = if f a then n else 0 := by
  induction n with
  | zero => simp
  | succ k ih =>
      rw [Multiset.replicate_succ, cnt_cons, ih]
      by_cases h : f a <;> simp [h]

lemma cnt_le_card (f : CState → Bool) (m : Multiset CState) :
    cnt f m ≤ Multiset.card m :=
  Multiset.countP_le_card _ _

lemma cnt_all {f : CState → Bool} {m : Multiset CState}
    (h : cnt f m = Multiset.card m) : ∀ a ∈ m, f a = true :=
  Multiset.countP_eq_card.mp h

lemma cnt_none {f : CState → Bool} {m : Multiset CState}
    (h : ∀ a ∈ m, f a = false) : cnt f m = 0 := by
  apply Multiset.countP_eq_zero.mpr
  intro a ha
  simp [h a ha]

/-! ### Bookkeeping functions of the main thread's program counter -/

/-- `true` while a round is in progress (consumer threads exist). -/
def inRound : MPc → Bool
  | .mstart => false
  | .mfinal => false
  | _ => true

/-- 1 when main has appended an item but not yet released `items_produced`. -/
def pendProd : MPc → Nat
  | .menq _ .toRelease => 1
  | _ => 0

/-- 1 when main has acquired `remaining_space` but not yet appended. -/
def pendApp : MPc → Nat
  | .menq _ .toAppend => 1
  | _ => 0

/-- 1 once main has arrived at the round's latch. -/
def mainArr : MPc → Nat
  | .mwait => 1
  | .mset => 1
  | .mjoin => 1
  | _ => 0

/-- Number of appends main has completed in the current round. -/
def enqCount : MPc → Nat
  | .mstart => 0
  | .menq i .toAcquire => i
  | .menq i .toAppend => i
  | .menq i .toRelease => i + 1
  | .marrive => total_enqueues
  | .mwait => total_enqueues
  | .mset => total_enqueues
  | .mjoin => total_enqueues
  | .mfinal => 0

lemma mainArr_le (pc : MPc) : mainArr pc ≤ 1 := by
  cases pc <;> simp [mainArr]

lemma enqCount_of_mainArr {pc : MPc} (h : mainArr pc = 1) :
    enqCount pc = total_enqueues := by
  cases pc <;> simp_all [mainArr, enqCount]

/-! ### Facts about the round's task sequence -/

lemma taskSeq_length : taskSeq.length = total_enqueues := by
  simp [taskSeq, total_enqueues]

lemma taskSeq_count_barrier : taskSeq.count QTask.barrier = num_threads := by
  simp [taskSeq, List.count_append, List.count_replicate]

lemma taskSeq_count_work : taskSeq.count QTask.work = num_enqueues_per_run := by
  simp [taskSeq, List.count_append, List.count_replicate]

lemma taskSeq_getElem (i : Nat) (h : i < total_enqueues) :
    taskSeq[i]? = some (taskAt i) := by
  unfold taskSeq taskAt
  rw [List.getElem?_append]
  by_cases hi : i < num_enqueues_per_run
  · have hlen : i < (List.replicate num_enqueues_per_run QTask.work).length := by
      simpa using hi
    rw [if_pos hlen, List.getElem?_eq_getElem hlen, List.getElem_replicate]
    simp [hi]
  · have hlen : ¬ i < (List.replicate num_enqueues_per_run QTask.work).length := by
      simpa using hi
    rw [if_neg hlen]
    have hlt : i - (List.replicate num_enqueues_per_run QTask.work).length <
        (List.replicate num_threads QTask.barrier).length := by
      simp only [List.length_replicate]
      simp only [total_enqueues] at h
      omega
    rw [List.getElem?_eq_getElem hlt, List.getElem_replicate]
    simp [hi]

lemma taskSeq_take_succ {i : Nat} (h : i < total_enqueues) :
    taskSeq.take (i + 1) = taskSeq.take i ++ [taskAt i] := by
  rw [List.take_succ, taskSeq_getElem i h]
  rfl

lemma taskSeq_take_total : taskSeq.take total_enqueues = taskSeq := by
  rw [← taskSeq_length, List.take_length]

lemma taskSeq_last_barrier (n : Nat) (h : n < total_enqueues) :
    QTask.barrier ∈ taskSeq.drop n := by
  have hlast : taskSeq[total_enqueues - 1]? = some QTask.barrier := by
    rw [taskSeq_getElem _ (by omega)]
    simp [taskAt, num_enqueues_per_run, total_enqueues, num_threads]
  have hget : (taskSeq.drop n)[total_enqueues - 1 - n]? = some QTask.barrier := by
    rw [List.getElem?_drop]
    have harith : n + (total_enqueues - 1 - n) = total_enqueues - 1 := by omega
    rw [harith, hlast]
  exact List.getElem?_mem hget

/-- A suffix of the round's task sequence containing no latch task is empty:
the sequence ends with the latch tasks. -/
lemma suffix_no_barrier_nil {p l : List QTask}
    (hsplit : taskSeq = p ++ l) (hbar : l.count QTask.barrier = 0) :
    l = [] := by
  by_contra hne
  have hdrop : l = taskSeq.drop p.length := by
    rw [hsplit, List.drop_left]
  have hlt : p.length < total_enqueues := by
    by_contra hge
    have hnil : taskSeq.drop p.length = [] := by
      apply List.drop_eq_nil_of_le
      rw [taskSeq_length]
      omega
    exact hne (hdrop.trans hnil)
  have hmem : QTask.barrier ∈ l := hdrop ▸ taskSeq_last_barrier p.length hlt
  rw [List.count_eq_zero] at hbar
  exact hbar hmem

/-! ### The global inductive invariant -/

/-- The global inductive invariant of the interleaved program.  The clauses
are accounting identities tying the two semaphore counters, the store, the
ghost histories, the latch and the per-thread program counters together. -/
structure ProgInv (c : Config) : Prop where
  crash_free : c.crashed = false
  hist_split : c.history = c.popped ++ c.items
  hist_take : c.history = taskSeq.take (enqCount c.mainPc)
  prod_eq : c.items_produced + cnt isAcq c.consumers + pendProd c.mainPc
      = c.items.length
  space_eq : c.remaining_space + c.items.length + pendApp c.mainPc
      + cnt isHold c.consumers = queue_capacity
  count_eq : c.count + cnt (isFlight .work) c.consumers
      = num_enqueues_per_run * c.round + c.popped.count .work
  arr_eq : inRound c.mainPc = true →
      c.arrivals + cnt (isFlight .barrier) c.consumers
        = c.popped.count .barrier + mainArr c.mainPc
  latch_closed : inRound c.mainPc = true → c.arrivals ≤ num_threads →
      cnt isWait c.consumers + mainArr c.mainPc = c.arrivals
  latch_open : inRound c.mainPc = true → c.arrivals = num_threads + 1 →
      ∀ s ∈ c.consumers, isPostBarrier s = true
  card_eq : inRound c.mainPc = true →
      Multiset.card c.consumers = num_threads
  consumers_gone : inRound c.mainPc = false → c.consumers = 0
  enq_lt : ∀ i ph, c.mainPc = .menq i ph → i < total_enqueues
  stop_pc : c.stop_requested = true → inRound c.mainPc = true →
      c.mainPc = .mjoin
  late_arr : c.mainPc = .mset ∨ c.mainPc = .mjoin →
      c.arrivals = num_threads + 1
  final_round : c.mainPc = .mfinal → c.round = num_runs
  round_le : c.round ≤ num_runs
  round_lt : inRound c.mainPc = true → c.round < num_runs
  arr_le : c.arrivals ≤ num_threads + 1

lemma inv_init : ProgInv init := by
  constructor <;> intros <;>
    simp_all [init, enqCount, inRound, pendProd, pendApp, mainArr, num_runs]

/-- The `popped` ghost never records more latch tasks than the round
enqueues. -/
lemma popped_barrier_le {c : Config} (h : ProgInv c) :
    c.popped.count QTask.barrier ≤ num_threads := by
  have h1 : c.popped.count QTask.barrier ≤ c.history.count QTask.barrier := by
    rw [h.hist_split, List.count_append]
    omega
  have h2 : c.history.count QTask.barrier ≤ taskSeq.count QTask.barrier := by
    rw [h.hist_take]
    exact (taskSeq.take_sublist _).count_le _
  calc c.popped.count QTask.barrier ≤ c.history.count QTask.barrier := h1
    _ ≤ taskSeq.count QTask.barrier := h2
    _ = num_threads := taskSeq_count_barrier

/-- Once the round's latch has opened (`arrivals = num_threads + 1`), the
round is fully drained: everything main enqueued this round has been popped,
the store is empty, and `items_produced` is back at zero. -/
lemma drained {c : Config} (h : ProgInv c) (hin : inRound c.mainPc = true)
    (h9 : c.arrivals = num_threads + 1) :
    c.popped = taskSeq ∧ c.items = [] ∧ c.items_produced = 0 ∧
      cnt isAcq c.consumers = 0 ∧ mainArr c.mainPc = 1 := by
  have hpb := h.latch_open hin h9
  have hbf : cnt (isFlight .barrier) c.consumers = 0 := by
    apply cnt_none
    intro a ha
    have := hpb a ha
    cases a <;> simp_all [isPostBarrier, isFlight]
  have hacq : cnt isAcq c.consumers = 0 := by
    apply cnt_none
    intro a ha
    have := hpb a ha
    cases a <;> simp_all [isPostBarrier, isAcq]
  have harr := h.arr_eq hin
  rw [h9, hbf] at harr
  have hble := popped_barrier_le h
  have hma := mainArr_le c.mainPc
  have hbar : c.popped.count QTask.barrier = num_threads := by omega
  have hma1 : mainArr c.mainPc = 1 := by omega
  have hhist : c.history = taskSeq := by
    rw [h.hist_take, enqCount_of_mainArr hma1, taskSeq_take_total]
  have hsplit : taskSeq = c.popped ++ c.items := by
    rw [← hhist]
    exact h.hist_split
  have hcnt : taskSeq.count QTask.barrier
      = c.popped.count QTask.barrier + c.items.count QTask.barrier := by
    rw [hsplit, List.count_append]
  have hib : c.items.count QTask.barrier = 0 := by
    rw [taskSeq_count_barrier] at hcnt
    omega
  have hinil : c.items = [] := suffix_no_barrier_nil hsplit hib
  have hprod : c.items_produced + cnt isAcq c.consumers + pendProd c.mainPc
      = 0 := by
    have := h.prod_eq
    rw [hinil] at this
    simpa using this
  refine ⟨?_, hinil, by omega, hacq, hma1⟩
  rw [hinil] at hsplit
  simpa using hsplit.symm

/-! ### Preservation of the invariant, one lemma per step constructor -/

lemma step_spawn {c : Config} (h : ProgInv c) (h1 : c.mainPc = .mstart)
    (h2 : c.round < num_runs) :
    ProgInv { c with mainPc := .menq 0 .toAcquire,
                     consumers := Multiset.replicate num_threads .idle,
                     stop_requested := false,
                     arrivals := 0 } := by
  have hcons : c.consumers = 0 := h.consumers_gone (by rw [h1]; rfl)
  have hhist : c.history = [] := by
    have ht := h.hist_take
    rw [h1] at ht
    simpa [enqCount] using ht
  have hpi : c.popped = [] ∧ c.items = [] := by
    have hs := h.hist_split
    rw [hhist] at hs
    exact List.append_eq_nil.mp hs.symm
  obtain ⟨hpop, hit⟩ := hpi
  obtain ⟨cf, hs, ht, pe, se, ce, ae, lc, lo, cq, cg, el, sp, la, fr, rle,
    rlt, ale⟩ := h
  constructor <;> intros <;>
    (try simp_all [enqCount, inRound, pendProd, pendApp, mainArr, isAcq,
      isHold, isWait, isFlight, isPostBarrier, total_enqueues,
      num_enqueues_per_run, num_threads]) <;>
    omega

lemma step_finish {c : Config} (h : ProgInv c) (h1 : c.mainPc = .mstart)
    (h2 : c.round = num_runs) :
    ProgInv { c with mainPc := .mfinal } := by
  have hcons : c.consumers = 0 := h.consumers_gone (by rw [h1]; rfl)
  obtain ⟨cf, hs, ht, pe, se, ce, ae, lc, lo, cq, cg, el, sp, la, fr, rle,
    rlt, ale⟩ := h
  constructor <;> intros <;>
    simp_all [enqCount, inRound, pendProd, pendApp, mainArr]

lemma isWait_postBarrier {s : CState} (h : isWait s = true) :
    isPostBarrier s = true := by
  cases s <;> simp_all [isWait, isPostBarrier]

lemma step_enqAcquire {c : Config} {i : Nat} (h : ProgInv c)
    (h1 : c.mainPc = .menq i .toAcquire) (h2 : 0 < c.remaining_space) :
    ProgInv { c with mainPc := .menq i .toAppend,
                     remaining_space := c.remaining_space - 1 } := by
  have hi : i < total_enqueues := h.enq_lt i _ h1
  obtain ⟨cf, hs, ht, pe, se, ce, ae, lc, lo, cq, cg, el, sp, la, fr, rle,
    rlt, ale⟩ := h
  constructor <;> intros <;>
    (try simp_all [enqCount, inRound, pendProd, pendApp, mainArr]) <;>
    omega

lemma step_enqAppend {c : Config} {i : Nat} (h : ProgInv c)
    (h1 : c.mainPc = .menq i .toAppend) :
    ProgInv { c with mainPc := .menq i .toRelease,
                     items := c.items ++ [taskAt i],
                     history := c.history ++ [taskAt i] } := by
  have hi : i < total_enqueues := h.enq_lt i _ h1
  have htake : taskSeq.take (i + 1) = taskSeq.take i ++ [taskAt i] :=
    taskSeq_take_succ hi
  obtain ⟨cf, hs, ht, pe, se, ce, ae, lc, lo, cq, cg, el, sp, la, fr, rle,
    rlt, ale⟩ := h
  constructor <;> intros <;>
    (try simp_all [enqCount, inRound, pendProd, pendApp, mainArr]) <;>
    omega

lemma step_enqReleaseNext {c : Config} {i : Nat} (h : ProgInv c)
    (h1 : c.mainPc = .menq i .toRelease) (h2 : i + 1 < total_enqueues) :
    ProgInv { c with mainPc := .menq (i + 1) .toAcquire,
                     items_produced := c.items_produced + 1 } := by
  obtain ⟨cf, hs, ht, pe, se, ce, ae, lc, lo, cq, cg, el, sp, la, fr, rle,
    rlt, ale⟩ := h
  constructor <;> intros <;>
    (try simp_all [enqCount, inRound, pendProd, pendApp, mainArr]) <;>
    omega

lemma step_enqReleaseLast {c : Config} {i : Nat} (h : ProgInv c)
    (h1 : c.mainPc = .menq i .toRelease) (h2 : i + 1 = total_enqueues) :
    ProgInv { c with mainPc := .marrive,
                     items_produced := c.items_produced + 1 } := by
  obtain ⟨cf, hs, ht, pe, se, ce, ae, lc, lo, cq, cg, el, sp, la, fr, rle,
    rlt, ale⟩ := h
  constructor <;> intros <;>
    (try simp_all [enqCount, inRound, pendProd, pendApp, mainArr]) <;>
    omega

lemma step_mainArrive {c : Config} (h : ProgInv c) (h1 : c.mainPc = .marrive) :
    ProgInv { c with mainPc := .mwait, arrivals := c.arrivals + 1 } := by
  have hin : inRound c.mainPc = true := by rw [h1]; rfl
  have hae := h.arr_eq hin
  have hble := popped_barrier_le h
  have hma : mainArr c.mainPc = 0 := by rw [h1]; rfl
  have halt : c.arrivals ≤ num_threads := by
    rw [hma] at hae
    omega
  have hlc := h.latch_closed hin halt
  have hcard := h.card_eq hin
  have hopen : c.arrivals + 1 = num_threads + 1 →
      ∀ s ∈ c.consumers, isPostBarrier s = true := by
    intro h9 s hsmem
    have hwcard : cnt isWait c.consumers = Multiset.card c.consumers := by
      rw [hcard]
      rw [hma] at hlc
      omega
    exact isWait_postBarrier (cnt_all hwcard s hsmem)
  obtain ⟨cf, hs, ht, pe, se, ce, ae, lc, lo, cq, cg, el, sp, la, fr, rle,
    rlt, ale⟩ := h
  constructor <;> intros <;>
    (try simp_all [enqCount, inRound, pendProd, pendApp, mainArr]) <;>
    omega

lemma inRound_of_consumer {c : Config} {s : CState} {rest : Multiset CState}
    (h : ProgInv c) (hcons : c.consumers = s ::ₘ rest) :
    inRound c.mainPc = true := by
  by_contra hno
  have h0 := h.consumers_gone (by simpa using hno)
  rw [hcons] at h0
  exact Multiset.cons_ne_zero h0

lemma step_cExit {c : Config} {rest : Multiset CState} (h : ProgInv c)
    (hcons : c.consumers = .idle ::ₘ rest) (hstop : c.stop_requested = true) :
    ProgInv { c with consumers := .done ::ₘ rest } := by
  have hin : inRound c.mainPc = true := inRound_of_consumer h hcons
  have hpc : c.mainPc = .mjoin := h.stop_pc hstop hin
  have h9 : c.arrivals = num_threads + 1 := h.late_arr (Or.inr hpc)
  have hopen : ∀ s ∈ (CState.done ::ₘ rest), isPostBarrier s = true := by
    intro s hsmem
    rcases Multiset.mem_cons.mp hsmem with hsq | hmem
    · subst hsq; rfl
    · exact h.latch_open hin h9 s (hcons ▸ Multiset.mem_cons_of_mem hmem)
  obtain ⟨cf, hs, ht, pe, se, ce, ae, lc, lo, cq, cg, el, sp, la, fr, rle,
    rlt, ale⟩ := h
  refine { latch_open := fun _ _ => hopen, crash_free := ?_,
           hist_split := ?_, hist_take := ?_, prod_eq := ?_, space_eq := ?_,
           count_eq := ?_, arr_eq := ?_, latch_closed := ?_, card_eq := ?_,
           consumers_gone := ?_, enq_lt := ?_, stop_pc := ?_, late_arr := ?_,
           final_round := ?_, round_le := ?_, round_lt := ?_, arr_le := ?_ }
  all_goals intros
  all_goals try simp_all [enqCount, inRound, pendProd, pendApp, mainArr,
    isAcq, isHold, isWait, isFlight, isPostBarrier, num_enqueues_per_run]
  all_goals omega

lemma step_cAcquire {c : Config} {rest : Multiset CState} (h : ProgInv c)
    (hcons : c.consumers = .idle ::ₘ rest) (hprod : 0 < c.items_produced) :
    ProgInv { c with consumers := .acquired ::ₘ rest,
                     items_produced := c.items_produced - 1 } := by
  have hin : inRound c.mainPc = true := inRound_of_consumer h hcons
  have h9c : c.arrivals = num_threads + 1 → False := by
    intro h9
    have hd := drained h hin h9
    omega
  have ha8 : c.arrivals ≤ num_threads := by
    have := h.arr_le
    by_contra hgt
    exact h9c (by omega)
  obtain ⟨cf, hs, ht, pe, se, ce, ae, lc, lo, cq, cg, el, sp, la, fr, rle,
    rlt, ale⟩ := h
  refine { latch_open := fun _ h9 => (h9c h9).elim, crash_free := ?_,
           hist_split := ?_, hist_take := ?_, prod_eq := ?_, space_eq := ?_,
           count_eq := ?_, arr_eq := ?_, latch_closed := ?_, card_eq := ?_,
           consumers_gone := ?_, enq_lt := ?_, stop_pc := ?_, late_arr := ?_,
           final_round := ?_, round_le := ?_, round_lt := ?_, arr_le := ?_ }
  all_goals intros
  all_goals try simp_all [enqCount, inRound, pendProd, pendApp, mainArr,
    isAcq, isHold, isWait, isFlight, isPostBarrier, num_enqueues_per_run]
  all_goals omega

lemma step_cAssertFail {c : Config} {rest : Multiset CState} (h : ProgInv c)
    (hcons : c.consumers = .acquired ::ₘ rest) (hnil : c.items = []) :
    ProgInv { c with crashed := true } := by
  exfalso
  have hpe := h.prod_eq
  rw [hcons, hnil] at hpe
  simp [isAcq] at hpe

set_option maxHeartbeats 1600000 in
lemma step_cPop {c : Config} {rest : Multiset CState} {t : QTask}
    {its : List QTask} (h : ProgInv c)
    (hcons : c.consumers = .acquired ::ₘ rest) (hit : c.items = t :: its) :
    ProgInv { c with consumers := .holding t ::ₘ rest,
                     items := its,
                     popped := c.popped ++ [t] } := by
  have hin : inRound c.mainPc = true := inRound_of_consumer h hcons
  have h9c : c.arrivals = num_threads + 1 → False := by
    intro h9
    have hmem : CState.acquired ∈ c.consumers := by
      rw [hcons]
      exact Multiset.mem_cons_self _ _
    have hpb := h.latch_open hin h9 .acquired hmem
    simp [isPostBarrier] at hpb
  have ha8 : c.arrivals ≤ num_threads := by
    have := h.arr_le
    by_contra hgt
    exact h9c (by omega)
  obtain ⟨cf, hs, ht, pe, se, ce, ae, lc, lo, cq, cg, el, sp, la, fr, rle,
    rlt, ale⟩ := h
  cases t
  all_goals
    refine { latch_open := fun _ h9 => (h9c h9).elim, crash_free := ?_,
             hist_split := ?_, hist_take := ?_, prod_eq := ?_, space_eq := ?_,
             count_eq := ?_, arr_eq := ?_, latch_closed := ?_, card_eq := ?_,
             consumers_gone := ?_, enq_lt := ?_, stop_pc := ?_,
             late_arr := ?_, final_round := ?_, round_le := ?_,
             round_lt := ?_, arr_le := ?_ }
  all_goals intros
  all_goals try simp_all [enqCount, inRound, pendProd, pendApp, mainArr,
    isAcq, isHold, isWait, isFlight, isPostBarrier, num_enqueues_per_run,
    List.count_append]
  all_goals omega

set_option maxHeartbeats 1600000 in
lemma step_cRelSpace {c : Config} {rest : Multiset CState} {t : QTask}
    (h : ProgInv c) (hcons : c.consumers = .holding t ::ₘ rest) :
    ProgInv { c with consumers := .executing t ::ₘ rest,
                     remaining_space := c.remaining_space + 1 } := by
  have hin : inRound c.mainPc = true := inRound_of_consumer h hcons
  have h9c : c.arrivals = num_threads + 1 → False := by
    intro h9
    have hmem : CState.holding t ∈ c.consumers := by
      rw [hcons]
      exact Multiset.mem_cons_self _ _
    have hpb := h.latch_open hin h9 (.holding t) hmem
    simp [isPostBarrier] at hpb
  have ha8 : c.arrivals ≤ num_threads := by
    have := h.arr_le
    by_contra hgt
    exact h9c (by omega)
  obtain ⟨cf, hs, ht, pe, se, ce, ae, lc, lo, cq, cg, el, sp, la, fr, rle,
    rlt, ale⟩ := h
  cases t
  all_goals
    refine { latch_open := fun _ h9 => (h9c h9).elim, crash_free := ?_,
             hist_split := ?_, hist_take := ?_, prod_eq := ?_, space_eq := ?_,
             count_eq := ?_, arr_eq := ?_, latch_closed := ?_, card_eq := ?_,
             consumers_gone := ?_, enq_lt := ?_, stop_pc := ?_,
             late_arr := ?_, final_round := ?_, round_le := ?_,
             round_lt := ?_, arr_le := ?_ }
  all_goals intros
  all_goals try simp_all [enqCount, inRound, pendProd, pendApp, mainArr,
    isAcq, isHold, isWait, isFlight, isPostBarrier, num_enqueues_per_run]
  all_goals omega

lemma step_cExecWork {c : Config} {rest : Multiset CState} (h : ProgInv c)
    (hcons : c.consumers = .executing .work ::ₘ rest) :
    ProgInv { c with consumers := .idle ::ₘ rest, count := c.count + 1 } := by
  have hin : inRound c.mainPc = true := inRound_of_consumer h hcons
  have h9c : c.arrivals = num_threads + 1 → False := by
    intro h9
    have hmem : CState.executing .work ∈ c.consumers := by
      rw [hcons]
      exact Multiset.mem_cons_self _ _
    have hpb := h.latch_open hin h9 (.executing .work) hmem
    simp [isPostBarrier] at hpb
  have ha8 : c.arrivals ≤ num_threads := by
    have := h.arr_le
    by_contra hgt
    exact h9c (by omega)
  obtain ⟨cf, hs, ht, pe, se, ce, ae, lc, lo, cq, cg, el, sp, la, fr, rle,
    rlt, ale⟩ := h
  refine { latch_open := fun _ h9 => (h9c h9).elim, crash_free := ?_,
           hist_split := ?_, hist_take := ?_, prod_eq := ?_, space_eq := ?_,
           count_eq := ?_, arr_eq := ?_, latch_closed := ?_, card_eq := ?_,
           consumers_gone := ?_, enq_lt := ?_, stop_pc := ?_, late_arr := ?_,
           final_round := ?_, round_le := ?_, round_lt := ?_, arr_le := ?_ }
  all_goals intros
  all_goals try simp_all [enqCount, inRound, pendProd, pendApp, mainArr,
    isAcq, isHold, isWait, isFlight, isPostBarrier, num_enqueues_per_run]
  all_goals omega

lemma step_cExecBarrier {c : Config} {rest : Multiset CState} (h : ProgInv c)
    (hcons : c.consumers = .executing .barrier ::ₘ rest) :
    ProgInv { c with consumers := .waiting ::ₘ rest,
                     arrivals := c.arrivals + 1 } := by
  have hin : inRound c.mainPc = true := inRound_of_consumer h hcons
  have h9c : c.arrivals = num_threads + 1 → False := by
    intro h9
    have hmem : CState.executing .barrier ∈ c.consumers := by
      rw [hcons]
      exact Multiset.mem_cons_self _ _
    have hpb := h.latch_open hin h9 (.executing .barrier) hmem
    simp [isPostBarrier] at hpb
  have ha8 : c.arrivals ≤ num_threads := by
    have := h.arr_le
    by_contra hgt
    exact h9c (by omega)
  have hlc := h.latch_closed hin ha8
  have hopen : c.arrivals + 1 = num_threads + 1 →
      ∀ s ∈ (CState.waiting ::ₘ rest), isPostBarrier s = true := by
    intro h9 s hsmem
    have hae := h.arr_eq hin
    have hble := popped_barrier_le h
    have hml := mainArr_le c.mainPc
    have hcard := h.card_eq hin
    rw [hcons] at hlc hae hcard
    simp [isWait, isFlight] at hlc hae
    rw [Multiset.card_cons] at hcard
    have hwrest : cnt isWait rest = Multiset.card rest := by omega
    rcases Multiset.mem_cons.mp hsmem with hsq | hmem
    · subst hsq; rfl
    · exact isWait_postBarrier (cnt_all hwrest s hmem)
  obtain ⟨cf, hs, ht, pe, se, ce, ae, lc, lo, cq, cg, el, sp, la, fr, rle,
    rlt, ale⟩ := h
  refine { latch_open := fun _ h9 => hopen h9, crash_free := ?_,
           hist_split := ?_, hist_take := ?_, prod_eq := ?_, space_eq := ?_,
           count_eq := ?_, arr_eq := ?_, latch_closed := ?_, card_eq := ?_,
           consumers_gone := ?_, enq_lt := ?_, stop_pc := ?_, late_arr := ?_,
           final_round := ?_, round_le := ?_, round_lt := ?_, arr_le := ?_ }
  all_goals intros
  all_goals try simp_all [enqCount, inRound, pendProd, pendApp, mainArr,
    isAcq, isHold, isWait, isFlight, isPostBarrier, num_enqueues_per_run]
  all_goals omega

lemma step_cLatchOpen {c : Config} {rest : Multiset CState} (h : ProgInv c)
    (hcons : c.consumers = .waiting ::ₘ rest)
    (h9 : c.arrivals = num_threads + 1) :
    ProgInv { c with consumers := .idle ::ₘ rest } := by
  have hin : inRound c.mainPc = true := inRound_of_consumer h hcons
  have hopen : ∀ s ∈ (CState.idle ::ₘ rest), isPostBarrier s = true := by
    intro s hsmem
    rcases Multiset.mem_cons.mp hsmem with hsq | hmem
    · subst hsq; rfl
    · exact h.latch_open hin h9 s (by rw [hcons]; exact Multiset.mem_cons_of_mem hmem)
  obtain ⟨cf, hs, ht, pe, se, ce, ae, lc, lo, cq, cg, el, sp, la, fr, rle,
    rlt, ale⟩ := h
  refine { latch_open := fun _ _ => hopen, crash_free := ?_,
           hist_split := ?_, hist_take := ?_, prod_eq := ?_, space_eq := ?_,
           count_eq := ?_, arr_eq := ?_, latch_closed := ?_, card_eq := ?_,
           consumers_gone := ?_, enq_lt := ?_, stop_pc := ?_, late_arr := ?_,
           final_round := ?_, round_le := ?_, round_lt := ?_, arr_le := ?_ }
  all_goals intros
  all_goals try simp_all [enqCount, inRound, pendProd, pendApp, mainArr,
    isAcq, isHold, isWait, isFlight, isPostBarrier, num_enqueues_per_run]
  all_goals omega

lemma step_mainLatchOpen {c : Config} (h : ProgInv c)
    (h1 : c.mainPc = .mwait) (h9 : c.arrivals = num_threads + 1) :
    ProgInv { c with mainPc := .mset } := by
  have hin : inRound c.mainPc = true := by rw [h1]; rfl
  have hopen := h.latch_open hin h9
  obtain ⟨cf, hs, ht, pe, se, ce, ae, lc, lo, cq, cg, el, sp, la, fr, rle,
    rlt, ale⟩ := h
  refine { latch_open := fun _ _ => hopen, crash_free := ?_,
           hist_split := ?_, hist_take := ?_, prod_eq := ?_, space_eq := ?_,
           count_eq := ?_, arr_eq := ?_, latch_closed := ?_, card_eq := ?_,
           consumers_gone := ?_, enq_lt := ?_, stop_pc := ?_, late_arr := ?_,
           final_round := ?_, round_le := ?_, round_lt := ?_, arr_le := ?_ }
  all_goals intros
  all_goals try simp_all [enqCount, inRound, pendProd, pendApp, mainArr,
    isAcq, isHold, isWait, isFlight, isPostBarrier, num_enqueues_per_run]
  all_goals omega

lemma step_mainSetStop {c : Config} (h : ProgInv c) (h1 : c.mainPc = .mset) :
    ProgInv { c with mainPc := .mjoin, stop_requested := true } := by
  have hin : inRound c.mainPc = true := by rw [h1]; rfl
  have h9 : c.arrivals = num_threads + 1 := h.late_arr (Or.inl h1)
  have hopen := h.latch_open hin h9
  obtain ⟨cf, hs, ht, pe, se, ce, ae, lc, lo, cq, cg, el, sp, la, fr, rle,
    rlt, ale⟩ := h
  refine { latch_open := fun _ _ => hopen, crash_free := ?_,
           hist_split := ?_, hist_take := ?_, prod_eq := ?_, space_eq := ?_,
           count_eq := ?_, arr_eq := ?_, latch_closed := ?_, card_eq := ?_,
           consumers_gone := ?_, enq_lt := ?_, stop_pc := ?_, late_arr := ?_,
           final_round := ?_, round_le := ?_, round_lt := ?_, arr_le := ?_ }
  all_goals intros
  all_goals try simp_all [enqCount, inRound, pendProd, pendApp, mainArr,
    isAcq, isHold, isWait, isFlight, isPostBarrier, num_enqueues_per_run]
  all_goals omega

lemma step_mainJoin {c : Config} (h : ProgInv c) (h1 : c.mainPc = .mjoin)
    (hall : ∀ s ∈ c.consumers, s = CState.done) :
    ProgInv { c with mainPc := .mstart,
                     round := c.round + 1,
                     consumers := 0,
                     history := [],
                     popped := [] } := by
  have hin : inRound c.mainPc = true := by rw [h1]; rfl
  have h9 : c.arrivals = num_threads + 1 := h.late_arr (Or.inr h1)
  have hd := drained h hin h9
  obtain ⟨hpop, hitems, hprod0, hacq0, hml⟩ := hd
  have hcw : c.popped.count QTask.work = num_enqueues_per_run := by
    rw [hpop, taskSeq_count_work]
  have hflW : cnt (isFlight .work) c.consumers = 0 := by
    apply cnt_none
    intro a ha
    rw [hall a ha]
    rfl
  have hhold : cnt isHold c.consumers = 0 := by
    apply cnt_none
    intro a ha
    rw [hall a ha]
    rfl
  obtain ⟨cf, hs, ht, pe, se, ce, ae, lc, lo, cq, cg, el, sp, la, fr, rle,
    rlt, ale⟩ := h
  constructor
  all_goals intros
  all_goals try simp_all [enqCount, inRound, pendProd, pendApp, mainArr,
    isAcq, isHold, isWait, isFlight, isPostBarrier, num_enqueues_per_run]
  all_goals omega

/-- Every step preserves the global invariant. -/
theorem inv_step {c c' : Config} (h : ProgInv c) (hs : Step c c') :
    ProgInv c' := by
  cases hs with
  | spawn h1 h2 => exact step_spawn h h1 h2
  | finish h1 h2 => exact step_finish h h1 h2
  | enqAcquire h1 h2 => exact step_enqAcquire h h1 h2
  | enqAppend h1 => exact step_enqAppend h h1
  | enqReleaseNext h1 h2 => exact step_enqReleaseNext h h1 h2
  | enqReleaseLast h1 h2 => exact step_enqReleaseLast h h1 h2
  | mainArrive h1 => exact step_mainArrive h h1
  | mainLatchOpen h1 h2 =>
      exact step_mainLatchOpen h h1 (by simpa [latch_released] using h2)
  | mainSetStop h1 => exact step_mainSetStop h h1
  | mainJoin h1 h2 => exact step_mainJoin h h1 h2
  | cExit h1 h2 => exact step_cExit h h1 h2
  | cAcquire h1 h2 => exact step_cAcquire h h1 h2
  | cAssertFail h1 h2 => exact step_cAssertFail h h1 h2
  | cPop h1 h2 => exact step_cPop h h1 h2
  | cRelSpace h1 => exact step_cRelSpace h h1
  | cExecWork h1 => exact step_cExecWork h h1
  | cExecBarrier h1 => exact step_cExecBarrier h h1
  | cLatchOpen h1 h2 =>
      exact step_cLatchOpen h h1 (by simpa [latch_released] using h2)

/-- The invariant holds in every reachable configuration. -/
theorem reachable_inv {c : Config} (h : Reachable c) : ProgInv c := by
  induction h with
  | refl => exact inv_init
  | tail _ hstep ih => exact inv_step ih hstep

lemma cnt_pos {f : CState → Bool} {m : Multiset CState} {a : CState}
    (hmem : a ∈ m) (ha : f a = true) : 0 < cnt f m := by
  apply Multiset.countP_pos.mpr
  exact ⟨a, hmem, ha⟩

/-! ### Witness configurations: a short concrete execution prefix -/

/-- After `spawn`: round 0 running, eight idle consumers. -/
def w1 : Config :=
  { init with mainPc := .menq 0 .toAcquire,
              consumers := Multiset.replicate num_threads .idle,
              stop_requested := false,
              arrivals := 0 }

/-- After main's `remaining_space.acquire()` for enqueue 0. -/
def w2 : Config :=
  { w1 with mainPc := .menq 0 .toAppend,
            remaining_space := w1.remaining_space - 1 }

/-- After main appends task 0 under the lock. -/
def w3 : Config :=
  { w2 with mainPc := .menq 0 .toRelease,
            items := w2.items ++ [taskAt 0],
            history := w2.history ++ [taskAt 0] }

/-- After main's `items_produced.release()` for enqueue 0. -/
def w4 : Config :=
  { w3 with mainPc := .menq 1 .toAcquire,
            items_produced := w3.items_produced + 1 }

/-- After one consumer's `items_produced.try_acquire_for` succeeds. -/
def w5 : Config :=
  { w4 with consumers :=
      .acquired ::ₘ Multiset.replicate (num_threads - 1) .idle,
            items_produced := w4.items_produced - 1 }

lemma reach_w5 : Reachable w5 := by
  have s1 : Step init w1 := Step.spawn rfl (by decide)
  have s2 : Step w1 w2 := Step.enqAcquire rfl (by decide)
  have s3 : Step w2 w3 := Step.enqAppend rfl
  have s4 : Step w3 w4 := Step.enqReleaseNext rfl (by decide)
  have s5 : Step w4 w5 := Step.cAcquire (by decide) (by decide)
  exact ((((Relation.ReflTransGen.refl.tail s1).tail s2).tail s3).tail
    s4).tail s5

/-- End of a round: main in `~thread_group`, all eight consumers exited. -/
def w8 : Config :=
  { init with mainPc := .mjoin,
              consumers := Multiset.replicate num_threads .done,
              arrivals := num_threads + 1,
              stop_requested := true }

/-- The round boundary the join step out of `w8` reaches. -/
def w9 : Config :=
  { w8 with mainPc := .mstart,
            round := w8.round + 1,
            consumers := 0,
            history := [],
            popped := [] }

/-! ### The claims -/

/-- C1: in every reachable configuration, a consumer whose timed acquire of
`items_produced` just succeeded (state `acquired`, the moment the store lock
is taken) finds the backing store non-empty, and consequently the
`assert(!items.empty())` in `try_dequeue_for` never fires — under every
interleaving, an empty store there would be the fatal assertion, and it is
unreachable. -/
theorem c1_store_nonempty_after_acquire {c : Config} (h : Reachable c) :
    (∀ s ∈ c.consumers, s = CState.acquired → c.items ≠ []) ∧
      c.crashed = false := by
  have hinv := reachable_inv h
  refine ⟨?_, hinv.crash_free⟩
  intro s hsmem hsacq
  have hpos : 0 < cnt isAcq c.consumers := by
    apply cnt_pos hsmem
    rw [hsacq]
    rfl
  have hpe := hinv.prod_eq
  have hlen : 0 < c.items.length := by omega
  exact List.ne_nil_of_length_pos hlen

/-- C1 witness: the reachable configuration `w5` has a consumer in state
`acquired`, and there the store is non-empty and no assertion has fired. -/
theorem c1_store_nonempty_after_acquire_witness :
    (∀ s ∈ w5.consumers, s = CState.acquired → w5.items ≠ []) ∧
      w5.crashed = false :=
  c1_store_nonempty_after_acquire reach_w5

/-- C2: in every reachable configuration, at the top of the round loop the
completed-work counter equals `num_enqueues_per_run` for each completed
round (no task lost, none executed twice), and when main reaches the final
assertion the grand total is `num_runs * num_enqueues_per_run`, i.e.
5120000. -/
theorem c2_no_lost_or_duplicated_work {c : Config} (h : Reachable c) :
    (c.mainPc = .mstart → c.count = num_enqueues_per_run * c.round) ∧
      (c.mainPc = .mfinal →
        c.count = num_runs * num_enqueues_per_run ∧ c.count = 5120000) := by
  have hinv := reachable_inv h
  have key : c.mainPc = .mstart ∨ c.mainPc = .mfinal →
      c.count = num_enqueues_per_run * c.round := by
    intro hpc
    have hcons : c.consumers = 0 := by
      apply hinv.consumers_gone
      rcases hpc with hpc | hpc <;> rw [hpc] <;> rfl
    have hhist : c.history = [] := by
      have ht := hinv.hist_take
      rcases hpc with hpc | hpc <;> rw [hpc] at ht <;>
        simpa [enqCount] using ht
    have hpop : c.popped = [] := by
      have hsp := hinv.hist_split
      rw [hhist] at hsp
      exact (List.append_eq_nil.mp hsp.symm).1
    have hce := hinv.count_eq
    rw [hcons, hpop] at hce
    simpa [num_enqueues_per_run] using hce
  constructor
  · intro hpc
    exact key (Or.inl hpc)
  · intro hpc
    have h1 := key (Or.inr hpc)
    have h2 := hinv.final_round hpc
    rw [h2] at h1
    have h3 : num_enqueues_per_run * num_runs = num_runs * num_enqueues_per_run :=
      Nat.mul_comm _ _
    have h4 : num_runs * num_enqueues_per_run = 5120000 := by decide
    rw [h1, h3, h4]
    exact ⟨h4.symm ▸ rfl, rfl⟩

/-- C2 witness: instantiated at the initial configuration, where zero rounds
have completed and the counter is zero. -/
theorem c2_no_lost_or_duplicated_work_witness :
    (init.mainPc = .mstart → init.count = num_enqueues_per_run * init.round) ∧
      (init.mainPc = .mfinal →
        init.count = num_runs * num_enqueues_per_run ∧
          init.count = 5120000) :=
  c2_no_lost_or_duplicated_work Relation.ReflTransGen.refl

/-- C3: characterisation of the main thread's `enqueue`: whenever a step
advances main's program counter inside an enqueue call, the steps occur in
exactly this order — acquire one unit of `remaining_space` (only possible
when a slot is free, blocking otherwise), then append the item at the tail
of the backing store under the lock, then release one unit of
`items_produced` after the lock is dropped — each step touching nothing else
of the queue, and none of them able to fail. -/
theorem c3_enqueue_order {c c' : Config} (hs : Step c c')
    (hne : c'.mainPc ≠ c.mainPc) (i : Nat) :
    (c.mainPc = .menq i .toAcquire →
      c'.mainPc = .menq i .toAppend ∧ 0 < c.remaining_space ∧
        c.remaining_space = c'.remaining_space + 1 ∧ c'.items = c.items ∧
        c'.items_produced = c.items_produced ∧ c'.crashed = c.crashed) ∧
    (c.mainPc = .menq i .toAppend →
      c'.mainPc = .menq i .toRelease ∧ c'.items = c.items ++ [taskAt i] ∧
        c'.remaining_space = c.remaining_space ∧
        c'.items_produced = c.items_produced ∧ c'.crashed = c.crashed) ∧
    (c.mainPc = .menq i .toRelease →
      c'.items_produced = c.items_produced + 1 ∧ c'.items = c.items ∧
        c'.remaining_space = c.remaining_space ∧ c'.crashed = c.crashed ∧
        (c'.mainPc = .menq (i + 1) .toAcquire ∨ c'.mainPc = .marrive)) := by
  cases hs <;> refine ⟨?_, ?_, ?_⟩ <;> intro hpc <;>
    (try simp_all) <;> omega

/-- C3 witness: the concrete step from `w1` to `w2` is the acquire phase of
enqueue 0 and has exactly the stated effect. -/
theorem c3_enqueue_order_witness :
    w2.mainPc = .menq 0 .toAppend ∧ 0 < w1.remaining_space ∧
      w1.remaining_space = w2.remaining_space + 1 ∧ w2.items = w1.items ∧
      w2.items_produced = w1.items_produced ∧ w2.crashed = w1.crashed := by
  have hstep : Step w1 w2 := Step.enqAcquire rfl (by decide)
  exact (c3_enqueue_order hstep (by decide) 0).1 rfl

/-- C4: when the timed acquire of `items_produced` times out (the counter
stays at zero for the whole timeout), `try_dequeue_for` returns an empty
optional — the expected non-error "no work yet" outcome, not the assertion
branch. -/
theorem c4_timeout_returns_empty {T : Type} (q : concurrent_bounded_queue T)
    (h : q.items_produced = 0) :
    ∃ q', try_dequeue_for q = some (none, q') := by
  refine ⟨q, ?_⟩
  simp [try_dequeue_for, sem_try_acquire, h]

/-- C4 witness: a concrete queue state with `items_produced = 0`. -/
theorem c4_timeout_returns_empty_witness :
    ∃ q', try_dequeue_for (⟨[], 0, 32⟩ : concurrent_bounded_queue Nat)
      = some (none, q') :=
  c4_timeout_returns_empty _ rfl

/-- C5: at no reachable instant does the backing store hold more than
`queue_capacity = 32` items. -/
theorem c5_capacity_bound {c : Config} (h : Reachable c) :
    c.items.length ≤ queue_capacity := by
  have hinv := reachable_inv h
  have hse := hinv.space_eq
  omega

/-- C5 witness: instantiated at the reachable configuration `w5`. -/
theorem c5_capacity_bound_witness : w5.items.length ≤ queue_capacity :=
  c5_capacity_bound reach_w5

/-- C6: FIFO — in every reachable configuration the append history splits as
the pop history followed by the current store contents, so the pop history
is a prefix of the append history: items are removed in exactly the order
they were inserted. -/
theorem c6_fifo {c : Config} (h : Reachable c) :
    c.history = c.popped ++ c.items ∧ c.popped <+: c.history := by
  have hinv := reachable_inv h
  exact ⟨hinv.hist_split, ⟨c.items, hinv.hist_split.symm⟩⟩

/-- C6 witness: instantiated at the reachable configuration `w5`, where one
item has been appended and none popped. -/
theorem c6_fifo_witness :
    w5.history = w5.popped ++ w5.items ∧ w5.popped <+: w5.history :=
  c6_fifo reach_w5

/-- C7: the round's latch accumulates at most `num_threads + 1` arrivals
(each party arrives once, the latch releases once), and whenever the stop
flag is true during a round the latch has already completed with exactly
`num_threads + 1` arrivals: `stop_requested` is set only after the barrier
completes, never before. -/
theorem c7_barrier_before_stop {c : Config} (h : Reachable c) :
    c.arrivals ≤ num_threads + 1 ∧
      (c.stop_requested = true → inRound c.mainPc = true →
        c.arrivals = num_threads + 1) := by
  have hinv := reachable_inv h
  refine ⟨hinv.arr_le, ?_⟩
  intro hstop hin
  exact hinv.late_arr (Or.inr (hinv.stop_pc hstop hin))

/-- C7 witness: instantiated at the reachable configuration `w5`. -/
theorem c7_barrier_before_stop_witness :
    w5.arrivals ≤ num_threads + 1 ∧
      (w5.stop_requested = true → inRound w5.mainPc = true →
        w5.arrivals = num_threads + 1) :=
  c7_barrier_before_stop reach_w5

/-- C8: the single queue instance (one persistent `items` store and one pair
of semaphore counters across the whole run) is empty at every round
boundary: at the top of the round loop and after the last round, the store
is empty and `items_produced` is zero — no item carries over between
rounds. -/
theorem c8_round_isolation {c : Config} (h : Reachable c)
    (hpc : c.mainPc = .mstart ∨ c.mainPc = .mfinal) :
    c.items = [] ∧ c.items_produced = 0 := by
  have hinv := reachable_inv h
  have hhist : c.history = [] := by
    have ht := hinv.hist_take
    rcases hpc with hpc | hpc <;> rw [hpc] at ht <;>
      simpa [enqCount] using ht
  have hit : c.items = [] := by
    have hsp := hinv.hist_split
    rw [hhist] at hsp
    exact (List.append_eq_nil.mp hsp.symm).2
  refine ⟨hit, ?_⟩
  have hpe := hinv.prod_eq
  rw [hit] at hpe
  simp at hpe
  omega

/-- C8 witness: instantiated at the initial configuration (top of round 0). -/
theorem c8_round_isolation_witness :
    init.items = [] ∧ init.items_produced = 0 :=
  c8_round_isolation Relation.ReflTransGen.refl (Or.inl rfl)

/-- C9: any step taking the main thread from `~thread_group` (joining) back
to the top of the round loop requires every consumer thread of the round to
have terminated first, and afterwards no consumer thread remains: no worker
outlives the round state that created it. -/
theorem c9_join_all {c c' : Config} (hs : Step c c')
    (h1 : c.mainPc = .mjoin) (h2 : c'.mainPc = .mstart) :
    (∀ s ∈ c.consumers, s = CState.done) ∧ c'.consumers = 0 := by
  cases hs
  case mainJoin hmj hall => exact ⟨hall, rfl⟩
  all_goals simp_all

/-- C9 witness: a concrete join step out of a round whose eight consumers
have all terminated. -/
theorem c9_join_all_witness :
    (∀ s ∈ w8.consumers, s = CState.done) ∧ w9.consumers = 0 := by
  have hstep : Step w8 w9 := Step.mainJoin rfl (by decide)
  exact c9_join_all hstep rfl rfl

/-- C10: the timeout path of `try_dequeue_for` leaves the queue state fully
unchanged: no item is removed from the store, no unit of `items_produced` is
consumed, and no unit of `remaining_space` is released. -/
theorem c10_timeout_state_unchanged {T : Type}
    (q : concurrent_bounded_queue T) (h : q.items_produced = 0) :
    try_dequeue_for q = some (none, q) := by
  simp [try_dequeue_for, sem_try_acquire, h]

/-- C10 witness: a concrete queue state with one free slot pattern,
`items_produced = 0`. -/
theorem c10_timeout_state_unchanged_witness :
    try_dequeue_for (⟨[], 0, 32⟩ : concurrent_bounded_queue Nat)
      = some (none, ⟨[], 0, 32⟩) :=
  c10_timeout_state_unchanged _ rfl
